import Mathlib

/-!
Verification of the worchflow workflow-orchestration library
(packages/worchflow). The TypeScript source is shallowly embedded:

* JSON-representable JavaScript values are the inductive `JsVal`
  (with an explicit `undef` constructor) and pure JSON trees are `Json`;
  strings stored in Redis hash fields are modelled by their parse
  outcome (`StoredBlob`), using that `JSON.parse (JSON.stringify j) = j`
  for any JSON tree `j`.
* The step runner (`execution/Step.ts`), the worker pool failure path
  (`Worcher.processExecution`), the client (`WorchflowClient`), orphan
  recovery, the scheduler leadership loop (`WorchflowScheduler`) and the
  cron minimum-interval estimator (`utils/cron.ts`) become pure Lean
  functions over explicit store states.
-/

namespace Worchflow

/-- JSON trees, the possible results of a successful `JSON.parse`.
Numbers are restricted to integers, which covers every numeric literal
appearing in the library and its protocol. -/
inductive Json where
  | null : Json
  | bool : Bool → Json
  | num : Int → Json
  | str : String → Json
  | arr : List Json → Json
  | obj : List (String × Json) → Json
deriving Repr

/-- JavaScript runtime values a step function may return: JSON trees
plus `undefined`, which JSON itself cannot represent. -/
inductive JsVal where
  | undef : JsVal
  | null : JsVal
  | bool : Bool → JsVal
  | num : Int → JsVal
  | str : String → JsVal
  | arr : List JsVal → JsVal
  | obj : List (String × JsVal) → JsVal
deriving Repr

mutual

/-- Decidable equality for `Json`. -/
def Json.beq : Json → Json → Bool
  | .null, .null => true
  | .bool a, .bool b => a == b
  | .num a, .num b => a == b
  | .str a, .str b => a == b
  | .arr a, .arr b => Json.beqList a b
  | .obj a, .obj b => Json.beqFields a b
  | _, _ => false

/-- Elementwise equality of JSON arrays. -/
def Json.beqList : List Json → List Json → Bool
  | [], [] => true
  | a :: as, b :: bs => Json.beq a b && Json.beqList as bs
  | _, _ => false

/-- Elementwise equality of JSON object field lists. -/
def Json.beqFields : List (String × Json) → List (String × Json) → Bool
  | [], [] => true
  | (ka, va) :: as, (kb, vb) :: bs => ka == kb && Json.beq va vb && Json.beqFields as bs
  | _, _ => false

end

instance : BEq Json := ⟨Json.beq⟩

mutual

theorem Json.beq_refl : ∀ j : Json, Json.beq j j = true
  | .null => rfl
  | .bool b => by simp [Json.beq]
  | .num n => by simp [Json.beq]
  | .str s => by simp [Json.beq]
  | .arr xs => by simp [Json.beq, Json.beqList_refl xs]
  | .obj fs => by simp [Json.beq, Json.beqFields_refl fs]

theorem Json.beqList_refl : ∀ xs : List Json, Json.beqList xs xs = true
  | [] => rfl
  | x :: xs => by simp [Json.beqList, Json.beq_refl x, Json.beqList_refl xs]

theorem Json.beqFields_refl : ∀ fs : List (String × Json), Json.beqFields fs fs = true
  | [] => rfl
  | (k, v) :: fs => by simp [Json.beqFields, Json.beq_refl v, Json.beqFields_refl fs]

end

mutual

theorem Json.eq_of_beq : ∀ {a b : Json}, Json.beq a b = true → a = b
  | .null, .null, _ => rfl
  | .bool _, .bool _, h => by simpa [Json.beq] using congrArg Json.bool (by simpa [Json.beq] using h)
  | .num _, .num _, h => by exact congrArg Json.num (by simpa [Json.beq] using h)
  | .str _, .str _, h => by exact congrArg Json.str (by simpa [Json.beq] using h)
  | .arr as, .arr bs, h => by
      exact congrArg Json.arr (Json.eqList_of_beq (by simpa [Json.beq] using h))
  | .obj as, .obj bs, h => by
      exact congrArg Json.obj (Json.eqFields_of_beq (by simpa [Json.beq] using h))

theorem Json.eqList_of_beq : ∀ {as bs : List Json}, Json.beqList as bs = true → as = bs
  | [], [], _ => rfl
  | a :: as, b :: bs, h => by
      have h' := h
      simp only [Json.beqList, Bool.and_eq_true] at h'
      exact congrArg₂ List.cons (Json.eq_of_beq h'.1) (Json.eqList_of_beq h'.2)

theorem Json.eqFields_of_beq :
    ∀ {as bs : List (String × Json)}, Json.beqFields as bs = true → as = bs
  | [], [], _ => rfl
  | (ka, va) :: as, (kb, vb) :: bs, h => by
      have h' := h
      simp only [Json.beqFields, Bool.and_eq_true, beq_iff_eq] at h'
      have hk : ka = kb := h'.1.1
      have hv : va = vb := Json.eq_of_beq h'.1.2
      have hs : as = bs := Json.eqFields_of_beq h'.2
      rw [hk, hv, hs]

end

instance : DecidableEq Json := fun a b =>
  if h : Json.beq a b then
    .isTrue (Json.eq_of_beq h)
  else
    .isFalse (fun he => h (he ▸ Json.beq_refl a))

mutual

/-- Decidable equality for `JsVal`. -/
def JsVal.beq : JsVal → JsVal → Bool
  | .undef, .undef => true
  | .null, .null => true
  | .bool a, .bool b => a == b
  | .num a, .num b => a == b
  | .str a, .str b => a == b
  | .arr a, .arr b => JsVal.beqList a b
  | .obj a, .obj b => JsVal.beqFields a b
  | _, _ => false

/-- Elementwise equality of JS arrays. -/
def JsVal.beqList : List JsVal → List JsVal → Bool
  | [], [] => true
  | a :: as, b :: bs => JsVal.beq a b && JsVal.beqList as bs
  | _, _ => false

/-- Elementwise equality of JS object field lists. -/
def JsVal.beqFields : List (String × JsVal) → List (String × JsVal) → Bool
  | [], [] => true
  | (ka, va) :: as, (kb, vb) :: bs => ka == kb && JsVal.beq va vb && JsVal.beqFields as bs
  | _, _ => false

end

instance : BEq JsVal := ⟨JsVal.beq⟩

mutual

theorem JsVal.beqv_refl : ∀ v : JsVal, JsVal.beq v v = true
  | .undef => rfl
  | .null => rfl
  | .bool b => by simp [JsVal.beq]
  | .num n => by simp [JsVal.beq]
  | .str s => by simp [JsVal.beq]
  | .arr xs => by simp [JsVal.beq, JsVal.beqvList_refl xs]
  | .obj fs => by simp [JsVal.beq, JsVal.beqvFields_refl fs]

theorem JsVal.beqvList_refl : ∀ xs : List JsVal, JsVal.beqList xs xs = true
  | [] => rfl
  | x :: xs => by simp [JsVal.beqList, JsVal.beqv_refl x, JsVal.beqvList_refl xs]

theorem JsVal.beqvFields_refl : ∀ fs : List (String × JsVal), JsVal.beqFields fs fs = true
  | [] => rfl
  | (k, v) :: fs => by simp [JsVal.beqFields, JsVal.beqv_refl v, JsVal.beqvFields_refl fs]

end

mutual

theorem JsVal.eqv_of_beq : ∀ {a b : JsVal}, JsVal.beq a b = true → a = b
  | .undef, .undef, _ => rfl
  | .null, .null, _ => rfl
  | .bool _, .bool _, h => by exact congrArg JsVal.bool (by simpa [JsVal.beq] using h)
  | .num _, .num _, h => by exact congrArg JsVal.num (by simpa [JsVal.beq] using h)
  | .str _, .str _, h => by exact congrArg JsVal.str (by simpa [JsVal.beq] using h)
  | .arr as, .arr bs, h => by
      exact congrArg JsVal.arr (JsVal.eqvList_of_beq (by simpa [JsVal.beq] using h))
  | .obj as, .obj bs, h => by
      exact congrArg JsVal.obj (JsVal.eqvFields_of_beq (by simpa [JsVal.beq] using h))

theorem JsVal.eqvList_of_beq : ∀ {as bs : List JsVal}, JsVal.beqList as bs = true → as = bs
  | [], [], _ => rfl
  | a :: as, b :: bs, h => by
      have h' := h
      simp only [JsVal.beqList, Bool.and_eq_true] at h'
      exact congrArg₂ List.cons (JsVal.eqv_of_beq h'.1) (JsVal.eqvList_of_beq h'.2)

theorem JsVal.eqvFields_of_beq :
    ∀ {as bs : List (String × JsVal)}, JsVal.beqFields as bs = true → as = bs
  | [], [], _ => rfl
  | (ka, va) :: as, (kb, vb) :: bs, h => by
      have h' := h
      simp only [JsVal.beqFields, Bool.and_eq_true, beq_iff_eq] at h'
      have hk : ka = kb := h'.1.1
      have hv : va = vb := JsVal.eqv_of_beq h'.1.2
      have hs : as = bs := JsVal.eqvFields_of_beq h'.2
      rw [hk, hv, hs]

end

instance : DecidableEq JsVal := fun a b =>
  if h : JsVal.beq a b then
    .isTrue (JsVal.eqv_of_beq h)
  else
    .isFalse (fun he => h (he ▸ JsVal.beqv_refl a))

mutual

/-- Semantics of `JSON.stringify(wrapped, (_, v) => v === undefined ? null : v)`
on a value tree (redis.ts, `saveStepToRedis`): the replacer maps every
`undefined` occurrence (top level, array element or object property) to
`null` before serialization, so every property is kept and the produced
text is the serialization of this JSON tree. -/
def jsonReplace : JsVal → Json
  | .undef => .null
  | .null => .null
  | .bool b => .bool b
  | .num n => .num n
  | .str s => .str s
  | .arr xs => .arr (jsonReplaceList xs)
  | .obj fs => .obj (jsonReplaceFields fs)

/-- Replacer applied to an array of values. -/
def jsonReplaceList : List JsVal → List Json
  | [] => []
  | x :: xs => jsonReplace x :: jsonReplaceList xs

/-- Replacer applied to the properties of an object. -/
def jsonReplaceFields : List (String × JsVal) → List (String × Json)
  | [] => []
  | (k, v) :: fs => (k, jsonReplace v) :: jsonReplaceFields fs

end

mutual

/-- Embedding of a parsed JSON tree back into the JS value domain;
`JSON.parse` never produces `undefined`. -/
def jsonToJs : Json → JsVal
  | .null => .null
  | .bool b => .bool b
  | .num n => .num n
  | .str s => .str s
  | .arr xs => .arr (jsonToJsList xs)
  | .obj fs => .obj (jsonToJsFields fs)

/-- Embedding of a JSON array. -/
def jsonToJsList : List Json → List JsVal
  | [] => []
  | x :: xs => jsonToJs x :: jsonToJsList xs

/-- Embedding of a JSON object field list. -/
def jsonToJsFields : List (String × Json) → List (String × JsVal)
  | [] => []
  | (k, v) :: fs => (k, jsonToJs v) :: jsonToJsFields fs

end

mutual

/-- Whether `undefined` occurs anywhere inside a JS value. -/
def hasUndef : JsVal → Bool
  | .undef => true
  | .null | .bool _ | .num _ | .str _ => false
  | .arr xs => hasUndefList xs
  | .obj fs => hasUndefFields fs

/-- Whether `undefined` occurs in an array of JS values. -/
def hasUndefList : List JsVal → Bool
  | [] => false
  | x :: xs => hasUndef x || hasUndefList xs

/-- Whether `undefined` occurs among object property values. -/
def hasUndefFields : List (String × JsVal) → Bool
  | [] => false
  | (_, v) :: fs => hasUndef v || hasUndefFields fs

end

/-- The step-wrapper envelope written by `saveStepToRedis`:
`{ cached: true, value: result }`, serialized with the
undefined-to-null replacer. -/
def encodeStep (result : JsVal) : Json :=
  .obj [("cached", .bool true), ("value", jsonReplace result)]

/-- Model of a string sitting in a Redis hash field, classified by its
`JSON.parse` outcome: the empty string, a string that fails to parse, or
a string whose parse yields the given JSON tree. Serializing a JSON tree
always yields a `wellFormed` blob carrying the same tree. -/
inductive StoredBlob where
  | emptyStr : StoredBlob
  | malformed : StoredBlob
  | wellFormed : Json → StoredBlob
deriving Repr, DecidableEq

/-- Property lookup on a parsed JSON object. `JSON.parse` keeps the last
occurrence of a duplicated key, so the last binding wins. -/
def jlookupField (fs : List (String × Json)) (k : String) : Option Json :=
  match fs with
  | [] => none
  | (k', v) :: rest =>
    match jlookupField rest k with
    | some r => some r
    | none => if k' = k then some v else none

/-- Semantics of `getStepFromRedis` (redis.ts) on the stored field:
absent field or empty string is a cache miss (`undefined`); a parse
failure is caught and is a miss; a parsed tree is a hit only when it is
an object whose `cached` property equals `true`, in which case its
`value` property is returned (accessing a property of a parsed `null`
throws and is caught, and a missing `value` property reads as
`undefined`). -/
def decodeStep (blob : Option StoredBlob) : JsVal :=
  match blob with
  | none => .undef
  | some .emptyStr => .undef
  | some .malformed => .undef
  | some (.wellFormed j) =>
    match j with
    | .obj fs =>
      if jlookupField fs "cached" = some (.bool true) then
        match jlookupField fs "value" with
        | some jv => jsonToJs jv
        | none => .undef
      else .undef
    | _ => .undef

mutual

/-- Decoding after the replacer is the identity on values without
`undefined`. -/
theorem jsonToJs_jsonReplace (v : JsVal) (h : hasUndef v = false) :
    jsonToJs (jsonReplace v) = v := by
  cases v with
  | undef => simp [hasUndef] at h
  | null => rfl
  | bool b => rfl
  | num n => rfl
  | str s => rfl
  | arr xs =>
      simp only [hasUndef] at h
      simp [jsonReplace, jsonToJs, jsonToJsList_jsonReplaceList xs h]
  | obj fs =>
      simp only [hasUndef] at h
      simp [jsonReplace, jsonToJs, jsonToJsFields_jsonReplaceFields fs h]

/-- Elementwise version of `jsonToJs_jsonReplace` for arrays. -/
theorem jsonToJsList_jsonReplaceList (xs : List JsVal) (h : hasUndefList xs = false) :
    jsonToJsList (jsonReplaceList xs) = xs := by
  cases xs with
  | nil => rfl
  | cons x xs =>
      simp only [hasUndefList, Bool.or_eq_false_iff] at h
      simp [jsonReplaceList, jsonToJsList, jsonToJs_jsonReplace x h.1,
        jsonToJsList_jsonReplaceList xs h.2]

/-- Elementwise version of `jsonToJs_jsonReplace` for object fields. -/
theorem jsonToJsFields_jsonReplaceFields (fs : List (String × JsVal))
    (h : hasUndefFields fs = false) :
    jsonToJsFields (jsonReplaceFields fs) = fs := by
  cases fs with
  | nil => rfl
  | cons f fs =>
      obtain ⟨k, v⟩ := f
      simp only [hasUndefFields, Bool.or_eq_false_iff] at h
      simp [jsonReplaceFields, jsonToJsFields, jsonToJs_jsonReplace v h.1,
        jsonToJsFields_jsonReplaceFields fs h.2]

end

/-- Decoding the blob written for `result` yields the replaced value:
the stored wrapper always registers as a cache hit. -/
theorem decodeStep_encodeStep (result : JsVal) :
    decodeStep (some (.wellFormed (encodeStep result))) = jsonToJs (jsonReplace result) := by
  simp [decodeStep, encodeStep, jlookupField]

/-- The embedding of a parsed JSON tree is never the miss sentinel. -/
theorem jsonToJs_ne_undef (j : Json) : jsonToJs j ≠ .undef := by
  cases j <;> simp [jsonToJs]

/-- A written wrapper never decodes to the miss sentinel: a completed
step always registers as a cache hit on later lookups. -/
theorem decodeStep_encodeStep_ne_undef (result : JsVal) :
    decodeStep (some (.wellFormed (encodeStep result))) ≠ .undef := by
  rw [decodeStep_encodeStep]
  exact jsonToJs_ne_undef _

/-- Lookup in a string-keyed association list (a Redis hash or an
in-process `Map`): first binding wins, and the write operation below
keeps at most one binding per key. -/
def alookup {α : Type} (xs : List (String × α)) (k : String) : Option α :=
  match xs with
  | [] => none
  | (k', v) :: rest => if k' = k then some v else alookup rest k

/-- Write semantics of `HSET field value` and of `Map.set`: overwrite
the existing binding, else append. -/
def aset {α : Type} (xs : List (String × α)) (k : String) (v : α) : List (String × α) :=
  match xs with
  | [] => [(k, v)]
  | (k', v') :: rest => if k' = k then (k, v) :: rest else (k', v') :: aset rest k v

theorem alookup_aset_self {α : Type} (xs : List (String × α)) (k : String) (v : α) :
    alookup (aset xs k v) k = some v := by
  induction xs with
  | nil => simp [aset, alookup]
  | cons kv rest ih =>
      obtain ⟨k', v'⟩ := kv
      by_cases h : k' = k <;> simp [aset, alookup, h, ih]

theorem alookup_aset_ne {α : Type} (xs : List (String × α)) (k k' : String) (v : α)
    (h : k ≠ k') : alookup (aset xs k v) k' = alookup xs k' := by
  induction xs with
  | nil => simp [aset, alookup, h]
  | cons kv rest ih =>
      obtain ⟨k₀, v₀⟩ := kv
      by_cases h0 : k₀ = k
      · subst h0
        simp [aset, alookup, h]
      · simp only [aset, if_neg h0]
        by_cases h1 : k₀ = k' <;> simp [alookup, h1, ih]

/-- One step record row inserted into the `steps` collection
(`saveStepToMongo`): execution id, step id, title and result. -/
structure StepRow where
  executionId : String
  stepId : String
  name : String
  result : JsVal
deriving Repr, DecidableEq

/-- State a `Step` instance (execution/Step.ts) operates on: its
in-process `completedSteps` map, the Redis hash `steps:{executionId}`
mapping step ids to wrapper blobs, and the `steps` collection rows. -/
structure StepState where
  memo : List (String × JsVal)
  redisSteps : List (String × StoredBlob)
  mongoSteps : List StepRow
deriving Repr

/-- What one `Step.run` call produced: the returned value, the next
state, and whether the compute function `fn` was invoked. -/
structure RunOutcome where
  value : JsVal
  state : StepState
  invoked : Bool
deriving Repr

/-- Shallow embedding of `Step.run(title, fn)` for an execution
`executionId`, parameterized by the step digest `hash` (md5-hex of the
title in hash.ts) and by the value `fnResult` that `fn` would return if
invoked. Mirrors the three-tier lookup: in-process memo, then the Redis
wrapper blob via `getStepFromRedis`, then compute-and-save
(`saveStepToRedis` with the wrapper envelope plus `saveStepToMongo`). -/
def stepRun (hash : String → String) (executionId : String) (s : StepState)
    (title : String) (fnResult : JsVal) : RunOutcome :=
  let stepId := hash title
  match alookup s.memo stepId with
  | some v => ⟨v, s, false⟩
  | none =>
    let cacheResult := decodeStep (alookup s.redisSteps stepId)
    if cacheResult ≠ .undef then
      ⟨cacheResult, { s with memo := aset s.memo stepId cacheResult }, false⟩
    else
      ⟨fnResult,
        { memo := aset s.memo stepId fnResult,
          redisSteps := aset s.redisSteps stepId (.wellFormed (encodeStep fnResult)),
          mongoSteps := s.mongoSteps ++ [⟨executionId, stepId, title, fnResult⟩] },
        true⟩

/-- Execution lifecycle statuses (types/data.ts). -/
inductive ExecStatus where
  | queued | processing | completed | failed | retrying
deriving Repr, DecidableEq

/-- Model of a string field holding a serialized payload, classified by
its `JSON.parse` outcome; the empty string is kept separate because it
is also falsy in the worker's required-fields check. -/
inductive JsonText where
  | emptyText : JsonText
  | badText : JsonText
  | goodText : Json → JsonText
deriving Repr, DecidableEq

/-- Semantics of JavaScript `parseInt(s, 10)` over the characters of
the string: skip leading whitespace, an optional sign, then the longest
digit run; `none` models `NaN`. -/
def jsParseIntChars (cs : List Char) : Option Int :=
  let trimmed := cs.dropWhile (·.isWhitespace)
  let signed : Int × List Char :=
    match trimmed with
    | '-' :: r => (-1, r)
    | '+' :: r => (1, r)
    | _ => (1, trimmed)
  let digits := signed.2.takeWhile (·.isDigit)
  if digits.isEmpty then none
  else some (signed.1 * (digits.foldl (fun acc c => acc * 10 + (c.toNat - '0'.toNat)) 0 : Nat))

/-- JavaScript `parseInt(s, 10)` on a string. -/
def jsParseInt (s : String) : Option Int :=
  jsParseIntChars s.toList

/-- The fields of the execution hash the worker reads from Redis
(`hgetall`, so every field is an optional string; an absent key gives
the record with every field absent). `eventData` is classified by its
parse outcome. -/
structure ExecData where
  eventName : Option String
  eventData : Option JsonText
  createdAt : Option String
  attemptCount : Option String
deriving Repr, DecidableEq

/-- Registered handler metadata as held by `WorkchflowFunction`:
`retries` and `retryDelay` are defaulted to 0 at construction. -/
structure WFn where
  id : String
  retries : Int
  retryDelay : Int
deriving Repr, DecidableEq

/-- What the handler would do if invoked. -/
inductive HandlerOutcome where
  | ok : JsVal → HandlerOutcome
  | throws : HandlerOutcome
deriving Repr, DecidableEq

/-- The error that sent `processExecution` into its catch block. -/
inductive ErrKind where
  | missingFields | payloadParse | unknownHandler | handlerThrew
deriving Repr, DecidableEq

/-- Externally visible effects of one `processExecution` call: the
terminal status written to both stores, the attempt count written with
it, the recorded error, whether the id was re-enqueued, whether the
handler ran, the result written on success, and whether the
`processing` transition was written. -/
structure PEResult where
  finalStatus : ExecStatus
  attemptWritten : Option Int
  errorKind : Option ErrKind
  enqueued : Bool
  invoked : Bool
  resultWritten : Option JsVal
  wroteProcessing : Bool
deriving Repr, DecidableEq

/-- Handler registry lookup. The map is built with
`new Map(functions.map(fn => [fn.id, fn]))`, so a later handler with
the same id overwrites an earlier one. -/
def findFn (fns : List WFn) (n : String) : Option WFn :=
  fns.foldl (fun acc f => if f.id = n then some f else acc) none

/-- JavaScript falsiness of an optional string field: absent or empty. -/
def jsFalsyStr (o : Option String) : Bool :=
  match o with
  | none => true
  | some s => s = ""

/-- The authoritative attempt count: `parseInt(attemptCount || '0', 10)`
(an absent or empty field falls back to the string "0"). -/
def parsedAttemptCount (ed : ExecData) : Option Int :=
  jsParseInt
    (match ed.attemptCount with
     | none => "0"
     | some s => if s = "" then "0" else s)

/-- The invariant every record written by the system satisfies: its
`attemptCount` field never parses to a negative number. -/
def attemptNonNegative (ed : ExecData) : Prop :=
  ∀ a : Int, parsedAttemptCount ed = some a → 0 ≤ a

/-- Whether the record fails `processExecution`'s validation even
though its event name may be fine: `eventData` absent, empty (falsy) or
unparseable, or `createdAt` absent or empty (falsy). -/
def recordDataMalformed (ed : ExecData) : Bool :=
  (match ed.eventData with
   | none => true
   | some .emptyText => true
   | some .badText => true
   | some (.goodText _) => false) || jsFalsyStr ed.createdAt

/-- Catch block of `Worcher.processExecution`: reload the record (no
concurrent writer touches `attemptCount`, so the reload returns `ed`),
resolve the handler from the reloaded `eventName` (an absent or empty
name resolves to no handler), default `retries` to 0 without a handler,
gate `shouldRetry` on `attemptCount < retries`, write
`retrying`/`failed` with `attemptCount + 1`, and re-enqueue only when
retrying and the pool is still running. This definition is the handler
resolution; `failOutcome` below is the rest of the block. -/
def reloadedHandler (fns : List WFn) (ed : ExecData) : Option WFn :=
  match ed.eventName with
  | none => none
  | some n => if n = "" then none else findFn fns n

/-- Catch block of `Worcher.processExecution` after the handler
resolution (see `reloadedHandler`). -/
def failOutcome (fns : List WFn) (ed : ExecData) (running : Bool) (kind : ErrKind)
    (invokedHandler : Bool) (wroteProcessing : Bool) : PEResult :=
  let fn : Option WFn := reloadedHandler fns ed
  let maxRetries : Int :=
    match fn with
    | some f => f.retries
    | none => 0
  let attempt : Option Int := parsedAttemptCount ed
  let shouldRetry : Bool :=
    match attempt with
    | some a => a < maxRetries
    | none => false
  { finalStatus := if shouldRetry then .retrying else .failed,
    attemptWritten := attempt.map (· + 1),
    errorKind := some kind,
    enqueued := shouldRetry && running,
    invoked := invokedHandler,
    resultWritten := none,
    wroteProcessing := wroteProcessing }

/-- Shallow embedding of `Worcher.processExecution` (the per-execution
pipeline): require `eventName`, `eventData`, `createdAt` truthy, parse
the payload, resolve the handler, write `processing`, invoke the
handler, and write the terminal state; every throw lands in
`failOutcome`. `outcome` is what the registered handler would do. -/
def processExecution (fns : List WFn) (ed : ExecData) (outcome : HandlerOutcome)
    (running : Bool) : PEResult :=
  match ed.eventName, ed.eventData, ed.createdAt with
  | some n, some t, some c =>
    if n = "" ∨ c = "" ∨ t = .emptyText then
      failOutcome fns ed running .missingFields false false
    else
      match t with
      | .emptyText => failOutcome fns ed running .missingFields false false
      | .badText => failOutcome fns ed running .payloadParse false false
      | .goodText _ =>
        match findFn fns n with
        | none => failOutcome fns ed running .unknownHandler false false
        | some _ =>
          match outcome with
          | .ok v =>
            { finalStatus := .completed,
              attemptWritten := parsedAttemptCount ed,
              errorKind := none,
              enqueued := false,
              invoked := true,
              resultWritten := some v,
              wroteProcessing := true }
          | .throws => failOutcome fns ed running .handlerThrew true true
  | _, _, _ => failOutcome fns ed running .missingFields false false

/-- Number of handler invocations when the registered handler throws on
every attempt: each retrying attempt rewrites `attemptCount` as
`String(attemptCount + 1)` and re-enqueues, and the next dequeue reads
that record back. `fuel` bounds the loop. -/
def failingAttemptsCount (fns : List WFn) (ed : ExecData) : Nat → Nat
  | 0 => 0
  | fuel + 1 =>
    let res := processExecution fns ed .throws true
    if res.invoked then
      1 + (if res.enqueued then
        failingAttemptsCount fns
          { ed with attemptCount := some (toString ((res.attemptWritten).getD 0)) } fuel
      else 0)
    else 0

/-- Stringification of a status for the Redis hash (the KV store keeps
only string fields). -/
def statusStr : ExecStatus → String
  | .queued => "queued"
  | .processing => "processing"
  | .completed => "completed"
  | .failed => "failed"
  | .retrying => "retrying"

/-- The execution hash `execution:{id}` in Redis: every field an
optional string, `eventData` classified by parse outcome. -/
structure RedisExec where
  id : Option String
  eventName : Option String
  eventData : Option JsonText
  status : Option String
  attemptCount : Option String
  createdAt : Option String
  updatedAt : Option String
  result : Option String
  error : Option String
deriving Repr, DecidableEq

/-- A hash that was never written: `hgetall` on it returns the empty
mapping. -/
def emptyRedisExec : RedisExec :=
  ⟨none, none, none, none, none, none, none, none, none⟩

/-- The typed execution record (types/data.ts `ExecutionRecord`) as the
client and orphan recovery hand it to `saveExecutionToRedis`. -/
structure ExecRecord where
  id : String
  eventName : String
  eventData : JsonText
  status : ExecStatus
  attemptCount : Int
  createdAt : Int
  updatedAt : Int
deriving Repr, DecidableEq

/-- Effect of `saveExecutionToRedis` on the execution hash: `hset` with
the seven stringified record fields; any other field of the hash (such
as `result` or `error`) is left as it was. -/
def saveExecutionToRedisHash (prior : RedisExec) (e : ExecRecord) : RedisExec :=
  { prior with
    id := some e.id,
    eventName := some e.eventName,
    eventData := some e.eventData,
    status := some (statusStr e.status),
    attemptCount := some (toString e.attemptCount),
    createdAt := some (toString e.createdAt),
    updatedAt := some (toString e.updatedAt) }

/-- The optional update fields accepted by `updateExecutionInRedis`;
`result` is held already serialized. -/
structure RedisUpdates where
  status : Option ExecStatus
  result : Option String
  error : Option String
  attemptCount : Option Int
  updatedAt : Option Int
deriving Repr, DecidableEq

/-- Effect of `updateExecutionInRedis`: `hset` with exactly the
provided fields, stringified; absent update fields leave the hash
untouched. -/
def updateExecutionInRedisHash (prior : RedisExec) (u : RedisUpdates) : RedisExec :=
  { prior with
    status := match u.status with | some st => some (statusStr st) | none => prior.status,
    result := match u.result with | some r => some r | none => prior.result,
    error := match u.error with | some e => some e | none => prior.error,
    attemptCount :=
      match u.attemptCount with
      | some a => some (toString a)
      | none => prior.attemptCount,
    updatedAt :=
      match u.updatedAt with
      | some t => some (toString t)
      | none => prior.updatedAt }

/-- A document of the `executions` collection. -/
structure MongoExec where
  id : String
  eventName : String
  eventData : JsonText
  status : ExecStatus
  attemptCount : Int
  result : Option JsVal
  error : Option String
  errorStack : Option String
  createdAt : Int
  updatedAt : Int
deriving Repr, DecidableEq

/-- The optional `$set` fields accepted by `updateExecutionInMongo`. -/
structure MongoUpdates where
  status : Option ExecStatus
  result : Option JsVal
  error : Option String
  errorStack : Option String
  attemptCount : Option Int
  updatedAt : Option Int
deriving Repr, DecidableEq

/-- Apply one `updateOne` document: `$set` the provided fields and, when
`unsetErrorFields` is true, `$unset` `error` and `errorStack` (the only
`$unset` the library issues, from `WorchflowClient.retry`). -/
def applyMongoUpdate (d : MongoExec) (u : MongoUpdates) (unsetErrorFields : Bool) : MongoExec :=
  let d' : MongoExec :=
    { d with
      status := u.status.getD d.status,
      result := match u.result with | some r => some r | none => d.result,
      error := match u.error with | some e => some e | none => d.error,
      errorStack := match u.errorStack with | some e => some e | none => d.errorStack,
      attemptCount := u.attemptCount.getD d.attemptCount,
      updatedAt := u.updatedAt.getD d.updatedAt }
  if unsetErrorFields then { d' with error := none, errorStack := none } else d'

/-- Semantics of `updateOne({id}, ...)`: the first matching document is
updated (the unique index on `executions.id` keeps ids distinct, so at
most one can match). -/
def mongoUpdateFirst (docs : List MongoExec) (i : String) (f : MongoExec → MongoExec) :
    List MongoExec :=
  match docs with
  | [] => []
  | d :: rest => if d.id = i then f d :: rest else d :: mongoUpdateFirst rest i f

/-- Semantics of `insertOne` into `executions` under the unique index
`idx_executions_id` created by `ensureIndexes`: a duplicate id makes the
insert reject and leaves the collection unchanged. -/
def mongoInsertExec (docs : List MongoExec) (d : MongoExec) : Except String (List MongoExec) :=
  if docs.any (fun d' => d'.id = d.id) then
    .error "E11000 duplicate key error"
  else
    .ok (docs ++ [d])

/-- Update a Redis execution hash in the keyed store; `hset` creates the
hash when the key is absent. -/
def kvApply (kv : List (String × RedisExec)) (i : String) (f : RedisExec → RedisExec) :
    List (String × RedisExec) :=
  aset kv i (f ((alookup kv i).getD emptyRedisExec))

/-- The shared state of both stores and the queue list. -/
structure SysState where
  kv : List (String × RedisExec)
  mongo : List MongoExec
  queue : List String
deriving Repr

/-- Shallow embedding of `WorchflowClient.retry(executionId)`: write
`status := queued`, `attemptCount := 0`, `updatedAt := now` to the Redis
hash and to the document (the latter with `$unset` of `error` and
`errorStack`), then `rpush` the id onto the queue. No field of the
current state is consulted. -/
def clientRetry (s : SysState) (i : String) (now : Int) : SysState :=
  { kv := kvApply s.kv i
      (fun prior => updateExecutionInRedisHash prior ⟨some .queued, none, none, some 0, some now⟩),
    mongo := mongoUpdateFirst s.mongo i
      (fun d => applyMongoUpdate d ⟨some .queued, none, none, none, some 0, some now⟩ true),
    queue := s.queue ++ [i] }

/-- The `executions` document the client inserts for a submission. -/
def mongoDocOfRecord (e : ExecRecord) : MongoExec :=
  ⟨e.id, e.eventName, e.eventData, e.status, e.attemptCount, none, none, none,
    e.createdAt, e.updatedAt⟩

/-- Shallow embedding of `WorchflowClient.send` for a caller-supplied
id: build the `queued` record, start the Redis and Mongo writes in
parallel (the Redis `hset` takes effect regardless of the insert's
outcome), and push to the queue only when both writes resolved; a
rejected insert makes `send` throw, reported by the `Bool`. -/
def clientSend (s : SysState) (i : String) (name : String) (dataText : JsonText)
    (now : Int) : SysState × Bool :=
  let rec0 : ExecRecord := ⟨i, name, dataText, .queued, 0, now, now⟩
  let kv' := kvApply s.kv i (fun prior => saveExecutionToRedisHash prior rec0)
  match mongoInsertExec s.mongo (mongoDocOfRecord rec0) with
  | .error _ => (⟨kv', s.mongo, s.queue⟩, true)
  | .ok docs => (⟨kv', docs, s.queue ++ [i]⟩, false)

/-- The orphan filter of `getOrphanedExecutions`:
`status ∈ {processing, retrying}`. -/
def isOrphanStatus (st : ExecStatus) : Bool :=
  st = .processing || st = .retrying

/-- Insertion into a list sorted ascending by an integer key. -/
def insertByKey {α : Type} (key : α → Int) (x : α) : List α → List α
  | [] => [x]
  | y :: ys => if key x ≤ key y then x :: y :: ys else y :: insertByKey key x ys

/-- Insertion sort ascending by an integer key (executable stand-in for
the store's sort; only the ascending order matters to any caller). -/
def sortByKey {α : Type} (key : α → Int) (xs : List α) : List α :=
  xs.foldr (insertByKey key) []

/-- Shallow embedding of `getOrphanedExecutions`: the orphan documents,
sorted by `createdAt` ascending. -/
def getOrphanedExecutions (docs : List MongoExec) : List MongoExec :=
  sortByKey (fun d => d.createdAt) (docs.filter (fun d => isOrphanStatus d.status))

/-- The typed record orphan recovery rebuilds for one orphan:
`{ ...execution, status: 'queued', updatedAt: now }`. -/
def restoredRecord (d : MongoExec) (now : Int) : ExecRecord :=
  { id := d.id, eventName := d.eventName, eventData := d.eventData,
    status := .queued, attemptCount := d.attemptCount,
    createdAt := d.createdAt, updatedAt := now }

/-- Redis effect of one recovery iteration: rewrite the execution hash
from the restored record. -/
def recoverKvStep (now : Int) (kv : List (String × RedisExec)) (d : MongoExec) :
    List (String × RedisExec) :=
  kvApply kv d.id (fun prior => saveExecutionToRedisHash prior (restoredRecord d now))

/-- Document-store effect of one recovery iteration: `$set`
`status := queued` and `updatedAt := now` on the orphan's document. -/
def recoverMongoStep (now : Int) (m : List MongoExec) (d : MongoExec) : List MongoExec :=
  mongoUpdateFirst m d.id
    (fun doc => applyMongoUpdate doc ⟨some .queued, none, none, none, none, some now⟩ false)

/-- One iteration of the recovery loop over a found orphan: rewrite the
Redis hash from the restored record, `$set` `status := queued` and
`updatedAt := now` on the document, and enqueue the id. -/
def recoverOne (now : Int) (acc : SysState × List String) (d : MongoExec) :
    SysState × List String :=
  let s := acc.1
  ({ kv := recoverKvStep now s.kv d,
     mongo := recoverMongoStep now s.mongo d,
     queue := s.queue ++ [d.id] },
   acc.2 ++ [d.id])

/-- Shallow embedding of `Worcher.recoverOrphanedExecutions`: snapshot
the orphan list from the document store, then process each orphan in
order. Returns the new state and the list of re-enqueued ids. -/
def recoverOrphans (s : SysState) (now : Int) : SysState × List String :=
  (getOrphanedExecutions s.mongo).foldl (recoverOne now) (s, [])

/-- One registered listener for a lifecycle event, classified by its
behaviour when called. -/
inductive Subscriber where
  | normal | throwing
deriving Repr, DecidableEq

/-- Semantics of Node's `EventEmitter.prototype.emit`, which `Worcher`
and `WorchflowClient` extend: listeners are called synchronously in
registration order, and a listener's exception propagates out of `emit`
immediately, before the remaining listeners run. Returns the listeners
actually invoked, in order, and whether `emit` threw. -/
def emitToSubscribers : List Subscriber → List Subscriber × Bool
  | [] => ([], false)
  | s :: rest =>
    match s with
    | .throwing => ([s], true)
    | .normal =>
      let tail := emitToSubscribers rest
      (s :: tail.1, tail.2)

/-- Observable scheduler instance state (`WorchflowScheduler`): whether
election is configured, whether the loop is live, whether this instance
believes it is leader, and whether its cron jobs map is non-empty. -/
structure SchedState where
  electionEnabled : Bool
  isRunning : Bool
  isLeader : Bool
  cronActive : Bool
deriving Repr, DecidableEq

/-- A freshly constructed scheduler: not running, not leader, no cron
jobs started. -/
def initialSched (electionEnabled : Bool) : SchedState :=
  ⟨electionEnabled, false, false, false⟩

/-- One `tryAcquireLeadership` tick. When leader: a positive remaining
TTL is extended and nothing else changes; an expired or absent key
drops leadership and stops the cron jobs. When not leader: a successful
`SET key EX ttl NX` acquires leadership and starts the cron jobs; a
failed set leaves everything unchanged. `redisOk` is the Redis answer
(TTL positive, respectively set-if-absent succeeded). -/
def schedTick (s : SchedState) (redisOk : Bool) : SchedState :=
  if !s.isRunning then s
  else if s.isLeader then
    if redisOk then s else { s with isLeader := false, cronActive := false }
  else
    if redisOk then { s with isLeader := true, cronActive := true } else s

/-- Model of `WorchflowScheduler.start`: with election enabled it runs
one immediate acquisition tick and schedules the interval; with
election disabled it declares itself leader and starts the cron jobs
directly. -/
def schedStart (s : SchedState) (firstOk : Bool) : SchedState :=
  let s' := { s with isRunning := true }
  if s'.electionEnabled then schedTick s' firstOk
  else { s' with isLeader := true, cronActive := true }

/-- Model of `WorchflowScheduler.stop`: clear the interval, stop the
cron jobs, release the leader key, drop leadership. -/
def schedStop (s : SchedState) : SchedState :=
  { s with isRunning := false, isLeader := false, cronActive := false }

/-- The events an already started scheduler instance observes. -/
inductive SchedEvent where
  | tick : Bool → SchedEvent
  | stop : SchedEvent
deriving Repr, DecidableEq

/-- Apply one observed event. -/
def schedStep (s : SchedState) : SchedEvent → SchedState
  | .tick ok => schedTick s ok
  | .stop => schedStop s

/-- The scheduler state reached after `start` (with first-tick answer
`firstOk`) and a sequence of later observations. -/
def schedRun (electionEnabled firstOk : Bool) (evs : List SchedEvent) : SchedState :=
  evs.foldl schedStep (schedStart (initialSched electionEnabled) firstOk)

/-- JavaScript `String.prototype.trim` on the character list. -/
def jsTrimChars (cs : List Char) : List Char :=
  ((cs.dropWhile (·.isWhitespace)).reverse.dropWhile (·.isWhitespace)).reverse

/-- Tokenizer behind `trim().split(/\s+/)`: maximal runs of
non-whitespace characters of the trimmed string. On a trimmed string
the regex split never yields empty tokens, except that splitting the
empty string yields `[""]`; both shapes have fewer than 5 parts, the
only property any caller reads off them in that case. -/
def wsTokensAux (pending : List Char) : List Char → List (List Char)
  | [] => if pending.isEmpty then [] else [pending.reverse]
  | c :: cs =>
    if c.isWhitespace then
      if pending.isEmpty then wsTokensAux [] cs
      else pending.reverse :: wsTokensAux [] cs
    else wsTokensAux (c :: pending) cs

/-- Whitespace splitting of a cron expression:
`expression.trim().split(/\s+/)`, tokens as character lists. -/
def jsSplitWs (s : String) : List (List Char) :=
  wsTokensAux [] (jsTrimChars s.toList)

/-- JavaScript `split(',')`: chunks between commas, empties kept. -/
def splitCommaAux (pending : List Char) : List Char → List (List Char)
  | [] => [pending.reverse]
  | c :: cs =>
    if c = ',' then pending.reverse :: splitCommaAux [] cs
    else splitCommaAux (c :: pending) cs

/-- Semantics of `parseIntervalExpression` (utils/cron.ts): parse the
digits after `*/`; a positive count gives that many seconds in
milliseconds, otherwise null. -/
def parseIntervalExpr (sp : List Char) : Option Int :=
  match jsParseIntChars (sp.drop 2) with
  | some k => if 0 < k then some (k * 1000) else none
  | none => none

/-- Semantics of `parseListExpression`: parse the comma-separated
values, drop the unparseable ones, sort ascending, and take the
minimum successive gap, starting the running minimum at 60; fewer than
two values give one minute. -/
def parseListExpr (sp : List Char) : Int :=
  let values := sortByKey (fun v => v)
    ((splitCommaAux [] sp).filterMap (fun v => jsParseIntChars (jsTrimChars v)))
  if 2 ≤ values.length then
    1000 * (((values.zip values.tail).map (fun p => p.2 - p.1)).foldl min 60)
  else 60000

/-- Semantics of `getMinimumIntervalMs`: fewer than five
whitespace-separated fields give null; otherwise the first (seconds)
field is interpreted as `*/k`, `*`, a plain number, a comma list, or
anything else (one minute). -/
def getMinimumIntervalMs (expression : String) : Option Int :=
  let parts := jsSplitWs expression
  if parts.length < 5 then none
  else
    let sp := parts.headD []
    match sp with
    | '*' :: '/' :: _ => parseIntervalExpr sp
    | _ =>
      if sp = ['*'] then some 1000
      else if (!sp.isEmpty) && sp.all (·.isDigit) then some 60000
      else if sp.contains ',' then some (parseListExpr sp)
      else some 60000

/-- Semantics of `shouldHaveRun(expression, lastRunTime, currentTime)`
with times in milliseconds: false when the last run is not in the past
or no interval could be derived, else true exactly when the next
expected run `lastRunTime + minInterval` has been reached. -/
def shouldHaveRun (expression : String) (lastRunTime currentTime : Int) : Bool :=
  if currentTime ≤ lastRunTime then false
  else
    match getMinimumIntervalMs expression with
    | none => false
    | some mi => lastRunTime + mi ≤ currentTime

/-- Modelled from the claim's words, for comparison with the code: the
minimum successive gap of the sorted parsed comma-list values, with no
lower cap. -/
def claimGapSeconds (sp : List Char) : Int :=
  let values := sortByKey (fun v => v)
    ((splitCommaAux [] sp).filterMap (fun v => jsParseIntChars (jsTrimChars v)))
  match (values.zip values.tail).map (fun p => p.2 - p.1) with
  | [] => 60
  | d :: ds => ds.foldl min d

/-- Modelled from the claim's words: the minimum interval the claim
says `shouldHaveRun` derives from the seconds field, in milliseconds —
`*/k` gives k seconds, `*` one second, a literal number sixty seconds,
a comma list the minimum successive gap, anything else sixty seconds. -/
def claimMinIntervalMs (expression : String) : Int :=
  let sp := (jsSplitWs expression).headD []
  match sp with
  | '*' :: '/' :: _ => 1000 * ((jsParseIntChars (sp.drop 2)).getD 60)
  | _ =>
    if sp = ['*'] then 1000
    else if (!sp.isEmpty) && sp.all (·.isDigit) then 60000
    else if sp.contains ',' then 1000 * claimGapSeconds sp
    else 60000

/-- C1: once an attempt has completed a step — its wrapper blob sits in
the step cache — any later `Step.run` with the same title in the same
execution (its fresh in-process memo not yet holding the step) returns
the decoded cached value without invoking the compute function, for
every cached value including null and undefined; and the run after that
returns the same value from the memo, again without invoking. -/
theorem claim1_step_cached_no_reinvoke
    (hash : String → String) (executionId title : String) (v fnResult fnResult' : JsVal)
    (s : StepState)
    (hmemo : alookup s.memo (hash title) = none)
    (hdone : alookup s.redisSteps (hash title) = some (.wellFormed (encodeStep v))) :
    (stepRun hash executionId s title fnResult).invoked = false ∧
    (stepRun hash executionId s title fnResult).value =
      decodeStep (some (.wellFormed (encodeStep v))) ∧
    (stepRun hash executionId
        (stepRun hash executionId s title fnResult).state title fnResult').invoked = false ∧
    (stepRun hash executionId
        (stepRun hash executionId s title fnResult).state title fnResult').value =
      (stepRun hash executionId s title fnResult).value := by
  have hne := decodeStep_encodeStep_ne_undef v
  simp only [stepRun, hmemo, hdone]
  rw [if_pos hne]
  refine ⟨rfl, rfl, ?_, ?_⟩ <;>
    simp [stepRun, alookup_aset_self]

/-- Witness for C1 at a concrete cached-undefined step. -/
theorem claim1_witness :
    (stepRun (fun t => t) "e"
      ⟨[], [("t", .wellFormed (encodeStep .undef))], []⟩ "t" (.num 7)).invoked = false ∧
    (stepRun (fun t => t) "e"
      ⟨[], [("t", .wellFormed (encodeStep .undef))], []⟩ "t" (.num 7)).value =
      decodeStep (some (.wellFormed (encodeStep .undef))) := by
  have h := claim1_step_cached_no_reinvoke (fun t => t) "e" "t" .undef (.num 7) (.num 8)
    ⟨[], [("t", .wellFormed (encodeStep .undef))], []⟩ rfl rfl
  exact ⟨h.1, h.2.1⟩

/-- C3 counterexample: at `v = undefined` the round trip does not yield
`v` back — encoding `undefined` with the wrapper protocol and decoding
the stored blob yields `null`, which is not `undefined`. -/
theorem claim3_counterexample :
    decodeStep (some (.wellFormed (encodeStep .undef))) ≠ JsVal.undef ∧
    decodeStep (some (.wellFormed (encodeStep .undef))) = JsVal.null ∧
    JsVal.null ≠ JsVal.undef := by
  exact ⟨by decide, rfl, by decide⟩

/-- C3 amended: the codec round-trips every value without `undefined`
occurrences — instanced here at each value the claim lists: null, 0,
the empty string, false, the empty object and an array of such values;
a value containing `undefined` comes back with each occurrence replaced
by `null` — so encoded `undefined` decodes to `null`, still a cache hit
— and an absent field decodes to the cache-miss sentinel `undefined`. -/
theorem claim3_codec_roundtrip_amended :
    (∀ v : JsVal, hasUndef v = false →
      decodeStep (some (.wellFormed (encodeStep v))) = v) ∧
    decodeStep (some (.wellFormed (encodeStep .null))) = JsVal.null ∧
    decodeStep (some (.wellFormed (encodeStep (.num 0)))) = JsVal.num 0 ∧
    decodeStep (some (.wellFormed (encodeStep (.str "")))) = JsVal.str "" ∧
    decodeStep (some (.wellFormed (encodeStep (.bool false)))) = JsVal.bool false ∧
    decodeStep (some (.wellFormed (encodeStep (.obj [])))) = JsVal.obj [] ∧
    decodeStep (some (.wellFormed (encodeStep (.arr [.num 0, .null, .str "x"])))) =
      JsVal.arr [.num 0, .null, .str "x"] ∧
    decodeStep (some (.wellFormed (encodeStep .undef))) = JsVal.null ∧
    decodeStep none = JsVal.undef := by
  refine ⟨fun v hv => ?_, rfl, rfl, rfl, rfl, rfl, rfl, rfl, rfl⟩
  rw [decodeStep_encodeStep, jsonToJs_jsonReplace v hv]

/-- Witness for C3 amended at the empty object. -/
theorem claim3_witness :
    hasUndef (JsVal.obj []) = false ∧
    decodeStep (some (.wellFormed (encodeStep (JsVal.obj [])))) = JsVal.obj [] :=
  ⟨by decide, claim3_codec_roundtrip_amended.1 (JsVal.obj []) (by decide)⟩

/-- C9 counterexample: with two subscribers of which the first throws,
`emit` invokes only the thrower — the remaining subscriber is never
called — and the exception propagates out of the emitting call. -/
theorem claim9_counterexample :
    (emitToSubscribers [.throwing, .normal]).1 = [Subscriber.throwing] ∧
    Subscriber.normal ∉ (emitToSubscribers [.throwing, .normal]).1 ∧
    (emitToSubscribers [.throwing, .normal]).2 = true := by
  refine ⟨rfl, ?_, rfl⟩
  decide

/-- C9 amended: `Worcher` and `WorchflowClient` emit through Node's
`EventEmitter`, whose delivery is synchronous in registration order and
is aborted by a throwing subscriber: the subscribers before the first
throwing one and that thrower run, the ones after it do not, and the
exception propagates to the emitter; only an emission whose subscribers
all return normally reaches every subscriber without throwing. -/
theorem claim9_emit_aborts_amended (pre rest : List Subscriber)
    (hpre : ∀ x ∈ pre, x = Subscriber.normal) :
    emitToSubscribers (pre ++ .throwing :: rest) = (pre ++ [.throwing], true) ∧
    (∀ subs : List Subscriber, (∀ x ∈ subs, x = Subscriber.normal) →
      emitToSubscribers subs = (subs, false)) := by
  constructor
  · induction pre with
    | nil => rfl
    | cons p ps ih =>
        have hp : p = Subscriber.normal := hpre p (by simp)
        subst hp
        have := ih (fun x hx => hpre x (by simp [hx]))
        simp [emitToSubscribers, this]
  · intro subs hsubs
    induction subs with
    | nil => rfl
    | cons p ps ih =>
        have hp : p = Subscriber.normal := hsubs p (by simp)
        subst hp
        have := ih (fun x hx => hsubs x (by simp [hx]))
        simp [emitToSubscribers, this]

/-- Witness for C9 amended: one well-behaved subscriber before the
thrower. -/
theorem claim9_witness :
    emitToSubscribers [.normal, .throwing, .normal] =
      ([Subscriber.normal, Subscriber.throwing], true) := by
  have h := claim9_emit_aborts_amended [Subscriber.normal] [Subscriber.normal]
    (by intro x hx; simpa using hx)
  simpa using h.1

/-- C10: submitting with a caller-supplied id that already exists in
the document store raises the unique-index error and does not enqueue
the id, yet the Redis execution hash for that id is still overwritten
with the fresh `queued` record, because the two store writes run in
parallel and `hset` is last-writer-wins per field. -/
theorem claim10_duplicate_send (s : SysState) (d : MongoExec) (i name : String)
    (dataText : JsonText) (now : Int)
    (hd : d ∈ s.mongo) (hid : d.id = i) :
    (clientSend s i name dataText now).2 = true ∧
    (clientSend s i name dataText now).1.queue = s.queue ∧
    (clientSend s i name dataText now).1.mongo = s.mongo ∧
    alookup (clientSend s i name dataText now).1.kv i =
      some (saveExecutionToRedisHash ((alookup s.kv i).getD emptyRedisExec)
        ⟨i, name, dataText, .queued, 0, now, now⟩) := by
  have hdup : s.mongo.any (fun d' => d'.id = (mongoDocOfRecord ⟨i, name, dataText, .queued, 0, now, now⟩).id) = true := by
    simp only [List.any_eq_true]
    exact ⟨d, hd, by simpa [mongoDocOfRecord] using hid⟩
  simp only [clientSend, mongoInsertExec, hdup, if_true, kvApply]
  simp [alookup_aset_self]

/-- Witness for C10 at a one-document store. -/
theorem claim10_witness :
    (clientSend ⟨[], [⟨"x", "f", .goodText .null, .completed, 0, none, none, none, 1, 2⟩], []⟩
      "x" "g" (.goodText (.obj [])) 9).2 = true ∧
    (clientSend ⟨[], [⟨"x", "f", .goodText .null, .completed, 0, none, none, none, 1, 2⟩], []⟩
      "x" "g" (.goodText (.obj [])) 9).1.queue = [] ∧
    alookup (clientSend ⟨[], [⟨"x", "f", .goodText .null, .completed, 0, none, none, none, 1, 2⟩], []⟩
      "x" "g" (.goodText (.obj [])) 9).1.kv "x" =
      some (saveExecutionToRedisHash emptyRedisExec ⟨"x", "g", .goodText (.obj []), .queued, 0, 9, 9⟩) := by
  have h := claim10_duplicate_send
    ⟨[], [⟨"x", "f", .goodText .null, .completed, 0, none, none, none, 1, 2⟩], []⟩
    ⟨"x", "f", .goodText .null, .completed, 0, none, none, none, 1, 2⟩
    "x" "g" (.goodText (.obj [])) 9 (by simp) rfl
  exact ⟨h.1, h.2.1, h.2.2.2⟩

/-- When the reloaded record resolves no registered handler, the catch
block falls back to zero retries; with a non-negative (or unparseable)
attempt count it therefore writes `failed` and never re-enqueues. -/
theorem failOutcome_no_handler (fns : List WFn) (ed : ExecData) (running : Bool)
    (kind : ErrKind) (inv wp : Bool)
    (hnn : attemptNonNegative ed) (hnone : reloadedHandler fns ed = none) :
    (failOutcome fns ed running kind inv wp).finalStatus = .failed ∧
    (failOutcome fns ed running kind inv wp).enqueued = false ∧
    (failOutcome fns ed running kind inv wp).errorKind = some kind ∧
    (failOutcome fns ed running kind inv wp).invoked = inv := by
  unfold failOutcome
  rw [hnone]
  cases hpa : parsedAttemptCount ed with
  | none => simp
  | some a =>
      have h0 := hnn a hpa
      have h1 : ¬ a < (0 : Int) := by omega
      simp [h1]

/-- Every validation failure lands in the catch block before the
handler could run: an absent or empty required field, an unparseable
payload, or an unknown event name each yield `failOutcome` with the
handler never invoked and the `processing` transition never written. -/
theorem processExecution_no_handler_eval (fns : List WFn) (ed : ExecData)
    (outcome : HandlerOutcome) (running : Bool)
    (hnone : reloadedHandler fns ed = none) :
    ∃ kind, processExecution fns ed outcome running = failOutcome fns ed running kind false false := by
  obtain ⟨en, edata, ca, att⟩ := ed
  cases en with
  | none => exact ⟨.missingFields, by cases edata <;> cases ca <;> rfl⟩
  | some n =>
    cases edata with
    | none => exact ⟨.missingFields, by cases ca <;> rfl⟩
    | some t =>
      cases ca with
      | none => exact ⟨.missingFields, rfl⟩
      | some c =>
        by_cases hn : n = ""
        · exact ⟨.missingFields, by simp [processExecution, hn]⟩
        · by_cases hcc : c = ""
          · exact ⟨.missingFields, by simp [processExecution, hn, hcc]⟩
          · cases t with
            | emptyText => exact ⟨.missingFields, by simp [processExecution]⟩
            | badText => exact ⟨.payloadParse, by simp [processExecution, hn, hcc]⟩
            | goodText j =>
                have hfind : findFn fns n = none := by
                  simpa [reloadedHandler, hn] using hnone
                exact ⟨.unknownHandler, by simp [processExecution, hn, hcc, hfind]⟩

/-- A record whose event name is present and truthy but whose data
fields fail validation lands in the catch block before the handler
could run, as a missing-fields or payload-parse error. -/
theorem processExecution_malformed_eval (fns : List WFn) (ed : ExecData)
    (outcome : HandlerOutcome) (running : Bool) (n : String)
    (hen : ed.eventName = some n) (hn : n ≠ "")
    (hmal : recordDataMalformed ed = true) :
    ∃ kind, (kind = ErrKind.missingFields ∨ kind = ErrKind.payloadParse) ∧
      processExecution fns ed outcome running =
        failOutcome fns ed running kind false false := by
  obtain ⟨en, edata, ca, att⟩ := ed
  cases hen
  cases edata with
  | none => exact ⟨.missingFields, Or.inl rfl, by cases ca <;> rfl⟩
  | some t =>
    cases ca with
    | none => exact ⟨.missingFields, Or.inl rfl, rfl⟩
    | some c =>
      by_cases hcc : c = ""
      · exact ⟨.missingFields, Or.inl rfl, by simp [processExecution, hn, hcc]⟩
      · cases t with
        | emptyText => exact ⟨.missingFields, Or.inl rfl, by simp [processExecution]⟩
        | badText => exact ⟨.payloadParse, Or.inr rfl, by simp [processExecution, hn, hcc]⟩
        | goodText j =>
            simp [recordDataMalformed, jsFalsyStr, hcc] at hmal

/-- C2: for a registered handler with `retries = r` and a well-formed
record whose handler throws, a failure read at `attemptCount = a < r`
writes `retrying` with `a + 1` and re-enqueues; the failure read at
`attemptCount = r` writes `failed` with `r + 1` and does not
re-enqueue; concretely, an always-throwing handler with `retries = 2`
is invoked exactly 3 times before the terminal `failed`. -/
theorem claim2_retry_policy (fns : List WFn) (fn : WFn) (ed : ExecData)
    (n c : String) (j : Json) (a : Int)
    (hen : ed.eventName = some n) (hn : n ≠ "")
    (hed : ed.eventData = some (.goodText j))
    (hca : ed.createdAt = some c) (hc : c ≠ "")
    (hfind : findFn fns n = some fn)
    (hatt : parsedAttemptCount ed = some a) :
    (processExecution fns ed .throws true).invoked = true ∧
    (a < fn.retries →
      (processExecution fns ed .throws true).finalStatus = .retrying ∧
      (processExecution fns ed .throws true).attemptWritten = some (a + 1) ∧
      (processExecution fns ed .throws true).enqueued = true) ∧
    (a = fn.retries →
      (processExecution fns ed .throws true).finalStatus = .failed ∧
      (processExecution fns ed .throws true).attemptWritten = some (a + 1) ∧
      (processExecution fns ed .throws true).enqueued = false) ∧
    failingAttemptsCount [⟨"f", 2, 0⟩]
      ⟨some "f", some (.goodText (.obj [])), some "1", some "0"⟩ 10 = 3 := by
  have hform : processExecution fns ed .throws true =
      failOutcome fns ed true .handlerThrew true true := by
    simp [processExecution, hen, hed, hca, hn, hc, hfind]
  have hres : reloadedHandler fns ed = some fn := by
    simp [reloadedHandler, hen, hn, hfind]
  refine ⟨?_, ?_, ?_, by decide⟩
  · rw [hform]; simp [failOutcome]
  · intro hlt
    rw [hform]
    simp [failOutcome, hres, hatt, hlt]
  · intro heq
    rw [hform]
    simp [failOutcome, hres, hatt, heq]

/-- Witness for C2 with `retries = 2` at attempts 0 and 2. -/
theorem claim2_witness :
    (processExecution [⟨"f", 2, 0⟩]
      ⟨some "f", some (.goodText (.obj [])), some "1", some "0"⟩ .throws true).finalStatus =
        ExecStatus.retrying ∧
    (processExecution [⟨"f", 2, 0⟩]
      ⟨some "f", some (.goodText (.obj [])), some "1", some "2"⟩ .throws true).finalStatus =
        ExecStatus.failed ∧
    (processExecution [⟨"f", 2, 0⟩]
      ⟨some "f", some (.goodText (.obj [])), some "1", some "2"⟩ .throws true).enqueued = false := by
  have h0 := claim2_retry_policy [⟨"f", 2, 0⟩] ⟨"f", 2, 0⟩
    ⟨some "f", some (.goodText (.obj [])), some "1", some "0"⟩ "f" "1" (.obj []) 0
    rfl (by decide) rfl rfl (by decide) rfl rfl
  have h2 := claim2_retry_policy [⟨"f", 2, 0⟩] ⟨"f", 2, 0⟩
    ⟨some "f", some (.goodText (.obj [])), some "1", some "2"⟩ "f" "1" (.obj []) 2
    rfl (by decide) rfl rfl (by decide) rfl rfl
  exact ⟨(h0.2.1 (by decide)).1, (h2.2.2.1 rfl).1, (h2.2.2.1 rfl).2.2⟩

/-- C4 counterexample: a record whose payload fails to parse but whose
event name has a registered handler with `retries = 1` is marked
`retrying` and re-enqueued — not `failed` — on its first failure. -/
theorem claim4_counterexample :
    (processExecution [⟨"f", 1, 0⟩] ⟨some "f", some .badText, some "1", some "0"⟩
      (.ok .null) true).finalStatus = ExecStatus.retrying ∧
    (processExecution [⟨"f", 1, 0⟩] ⟨some "f", some .badText, some "1", some "0"⟩
      (.ok .null) true).enqueued = true ∧
    (processExecution [⟨"f", 1, 0⟩] ⟨some "f", some .badText, some "1", some "0"⟩
      (.ok .null) true).errorKind = some ErrKind.payloadParse := by
  decide

/-- A resolved reloaded handler pins the record's event name: present,
truthy, and registered. -/
theorem reloadedHandler_some_eventName (fns : List WFn) (ed : ExecData) (fn : WFn)
    (h : reloadedHandler fns ed = some fn) :
    ∃ n, ed.eventName = some n ∧ n ≠ "" ∧ findFn fns n = some fn := by
  cases hen : ed.eventName with
  | none => simp [reloadedHandler, hen] at h
  | some n =>
      simp only [reloadedHandler, hen] at h
      by_cases hn : n = ""
      · simp [hn] at h
      · exact ⟨n, rfl, hn, by simpa [hn] using h⟩

/-- C4 amended: a dequeued execution whose record resolves no
registered handler — `eventName` absent or empty, or no handler under
that name — is marked `failed` with the error recorded and is never
re-enqueued, whatever any handler's `retries` says; but when the record
does resolve a registered handler, every validation failure — missing
or empty `eventData` or `createdAt`, or an unparseable payload —
follows that handler's retry policy instead: with
`attemptCount < retries` it is marked `retrying` and re-enqueued, with
a missing-fields or payload-parse error recorded and without invoking
the handler. -/
theorem claim4_failfast_amended (fns : List WFn) (ed : ExecData) (outcome : HandlerOutcome)
    (running : Bool) (fn : WFn) (a : Int) (c : String) :
    (attemptNonNegative ed → reloadedHandler fns ed = none →
      (processExecution fns ed outcome running).invoked = false ∧
      (processExecution fns ed outcome running).finalStatus = .failed ∧
      (processExecution fns ed outcome running).enqueued = false ∧
      (processExecution fns ed outcome running).errorKind.isSome = true) ∧
    (reloadedHandler fns ed = some fn → parsedAttemptCount ed = some a →
      a < fn.retries → ed.eventData = some .badText →
      ed.createdAt = some c → c ≠ "" → running = true →
      (processExecution fns ed outcome running).invoked = false ∧
      (processExecution fns ed outcome running).finalStatus = .retrying ∧
      (processExecution fns ed outcome running).enqueued = true ∧
      (processExecution fns ed outcome running).errorKind = some ErrKind.payloadParse) ∧
    (reloadedHandler fns ed = some fn → parsedAttemptCount ed = some a →
      a < fn.retries → recordDataMalformed ed = true → running = true →
      (processExecution fns ed outcome running).invoked = false ∧
      (processExecution fns ed outcome running).finalStatus = .retrying ∧
      (processExecution fns ed outcome running).attemptWritten = some (a + 1) ∧
      (processExecution fns ed outcome running).enqueued = true ∧
      ((processExecution fns ed outcome running).errorKind = some ErrKind.missingFields ∨
        (processExecution fns ed outcome running).errorKind = some ErrKind.payloadParse)) := by
  refine ⟨?_, ?_, ?_⟩
  · intro hnn hnone
    obtain ⟨kind, hk⟩ := processExecution_no_handler_eval fns ed outcome running hnone
    have h := failOutcome_no_handler fns ed running kind false false hnn hnone
    rw [hk]
    exact ⟨h.2.2.2, h.1, h.2.1, by rw [h.2.2.1]; rfl⟩
  · intro hres hatt hlt hbad hca hc hrun
    obtain ⟨n, hen, hn, _⟩ := reloadedHandler_some_eventName fns ed fn hres
    have hform : processExecution fns ed outcome running =
        failOutcome fns ed running .payloadParse false false := by
      simp [processExecution, hen, hbad, hca, hn, hc]
    rw [hform]
    simp [failOutcome, hres, hatt, hlt, hrun]
  · intro hres hatt hlt hmal hrun
    obtain ⟨n, hen, hn, _⟩ := reloadedHandler_some_eventName fns ed fn hres
    obtain ⟨kind, hkind, hform⟩ :=
      processExecution_malformed_eval fns ed outcome running n hen hn hmal
    rw [hform]
    refine ⟨by simp [failOutcome], ?_, ?_, ?_, ?_⟩
    · simp [failOutcome, hres, hatt, hlt]
    · simp [failOutcome, hres, hatt, hlt]
    · simp [failOutcome, hres, hatt, hlt, hrun]
    · rcases hkind with hk | hk
      · exact Or.inl (by simp [failOutcome, hk])
      · exact Or.inr (by simp [failOutcome, hk])

/-- Witness for C4 amended: the unknown-handler case, the
registered-handler bad-payload case and the registered-handler
missing-`createdAt` case at concrete records. -/
theorem claim4_witness :
    ((processExecution [] ⟨some "g", some (.goodText .null), some "1", some "0"⟩
        (.ok .null) true).finalStatus = ExecStatus.failed ∧
      (processExecution [] ⟨some "g", some (.goodText .null), some "1", some "0"⟩
        (.ok .null) true).enqueued = false) ∧
    ((processExecution [⟨"f", 1, 0⟩] ⟨some "f", some .badText, some "1", some "0"⟩
        (.ok .null) true).finalStatus = ExecStatus.retrying ∧
      (processExecution [⟨"f", 1, 0⟩] ⟨some "f", some .badText, some "1", some "0"⟩
        (.ok .null) true).enqueued = true) ∧
    ((processExecution [⟨"f", 1, 0⟩] ⟨some "f", some (.goodText .null), none, some "0"⟩
        (.ok .null) true).finalStatus = ExecStatus.retrying ∧
      (processExecution [⟨"f", 1, 0⟩] ⟨some "f", some (.goodText .null), none, some "0"⟩
        (.ok .null) true).enqueued = true ∧
      (processExecution [⟨"f", 1, 0⟩] ⟨some "f", some (.goodText .null), none, some "0"⟩
        (.ok .null) true).errorKind = some ErrKind.missingFields) := by
  have h1 := (claim4_failfast_amended [] ⟨some "g", some (.goodText .null), some "1", some "0"⟩
    (.ok .null) true ⟨"f", 1, 0⟩ 0 "1").1
    (by intro a ha
        have h0 : (some (0 : Int) : Option Int) = some a := ha
        cases Option.some.inj h0
        decide)
    rfl
  have h2 := (claim4_failfast_amended [⟨"f", 1, 0⟩]
    ⟨some "f", some .badText, some "1", some "0"⟩ (.ok .null) true ⟨"f", 1, 0⟩ 0 "1").2.1
    rfl rfl (by decide) rfl rfl (by decide) rfl
  have h3 := (claim4_failfast_amended [⟨"f", 1, 0⟩]
    ⟨some "f", some (.goodText .null), none, some "0"⟩ (.ok .null) true ⟨"f", 1, 0⟩ 0 "1").2.2
    rfl rfl (by decide) rfl rfl
  exact ⟨⟨h1.2.1, h1.2.2.1⟩, ⟨h2.2.1, h2.2.2.1⟩,
    ⟨h3.2.1, h3.2.2.2.1, h3.2.2.2.2.resolve_right (by decide)⟩⟩

/-- C7 counterexample: for the seconds field `*/0` the claim derives a
minimum interval of 0 seconds, making its formula true at
`lastExecutionTime = 0`, `now = 5000`; the code's
`parseIntervalExpression` rejects `k = 0`, `getMinimumIntervalMs`
returns null, and `shouldHaveRun` returns false. -/
theorem claim7_counterexample :
    shouldHaveRun "*/0 * * * * *" 0 5000 = false ∧
    claimMinIntervalMs "*/0 * * * * *" = 0 ∧
    0 + claimMinIntervalMs "*/0 * * * * *" ≤ 5000 ∧ (0 : Int) < 5000 := by
  decide

/-- C7 amended: `shouldHaveRun` is true exactly when an interval is
derived and `lastExecutionTime + minInterval ≤ now` with
`lastExecutionTime < now`; the interval table holds as claimed for
`*/k` with `k ≥ 1`, `*`, a literal number, a comma-list (gap capped at
60 s) and unknown fields, but `*/0` or `*/non-number` and expressions
with fewer than five fields derive no interval at all, so
`shouldHaveRun` is false there. -/
theorem claim7_min_interval_amended :
    (∀ (e : String) (l n : Int), shouldHaveRun e l n = true ↔
      ∃ mi, getMinimumIntervalMs e = some mi ∧ l < n ∧ l + mi ≤ n) ∧
    getMinimumIntervalMs "*/10 * * * * *" = some 10000 ∧
    getMinimumIntervalMs "* * * * * *" = some 1000 ∧
    getMinimumIntervalMs "30 * * * * *" = some 60000 ∧
    getMinimumIntervalMs "0,15,30,45 * * * * *" = some 15000 ∧
    getMinimumIntervalMs "tuesday * * * * *" = some 60000 ∧
    getMinimumIntervalMs "*/0 * * * * *" = none ∧
    getMinimumIntervalMs "*/x * * * * *" = none ∧
    getMinimumIntervalMs "* * * *" = none ∧
    getMinimumIntervalMs "0,120 * * * * *" = some 60000 := by
  refine ⟨?_, by decide, by decide, by decide, by decide, by decide, by decide,
    by decide, by decide, by decide⟩
  intro e l n
  unfold shouldHaveRun
  by_cases h : n ≤ l
  · simp only [if_pos h, Bool.false_eq_true, false_iff]
    rintro ⟨mi, _, hlt, _⟩
    omega
  · rw [if_neg h]
    cases hmi : getMinimumIntervalMs e with
    | none => simp
    | some mi =>
        simp only [hmi, decide_eq_true_eq, Option.some.injEq]
        constructor
        · intro hle
          exact ⟨mi, rfl, by omega, hle⟩
        · rintro ⟨mi', hmi', _, hle⟩
          cases hmi'
          exact hle

/-- Witness for C7 amended at a ten-second schedule. -/
theorem claim7_witness :
    shouldHaveRun "*/10 * * * * *" 0 10000 = true :=
  (claim7_min_interval_amended.1 "*/10 * * * * *" 0 10000).mpr
    ⟨10000, by decide, by decide, by decide⟩

/-- One observed event preserves the non-leader-no-cron invariant. -/
theorem schedStep_preserves_inv (s : SchedState) (e : SchedEvent)
    (h : s.cronActive = true → s.isLeader = true) :
    (schedStep s e).cronActive = true → (schedStep s e).isLeader = true := by
  obtain ⟨en, run, lead, cron⟩ := s
  cases e with
  | stop => simp [schedStep, schedStop]
  | tick ok =>
      cases run <;> cases lead <;> cases ok <;> simp_all [schedStep, schedTick]

/-- The invariant is preserved along any sequence of observed events. -/
theorem schedFold_inv (evs : List SchedEvent) (s : SchedState)
    (h : s.cronActive = true → s.isLeader = true) :
    (evs.foldl schedStep s).cronActive = true → (evs.foldl schedStep s).isLeader = true := by
  induction evs generalizing s with
  | nil => exact h
  | cons e evs ih => exact ih (schedStep s e) (schedStep_preserves_inv s e h)

/-- C8: an instance whose cron jobs are active believes itself leader
in every reachable state, having started them either on a successful
atomic set-if-absent acquisition or with leader election disabled; a
non-leader tick starts the cron jobs exactly when the set-if-absent
succeeds, and a leader that observes its key expired stops them on
that same tick. -/
theorem claim8_leader_cron_invariant (en firstOk : Bool) (evs : List SchedEvent) :
    ((schedRun en firstOk evs).cronActive = true → (schedRun en firstOk evs).isLeader = true) ∧
    (∀ s : SchedState, s.isRunning = true → s.isLeader = false → s.cronActive = false →
      ∀ ok : Bool, ((schedTick s ok).cronActive = true ↔ ok = true)) ∧
    (∀ s : SchedState, s.isRunning = true → s.isLeader = true →
      (schedTick s false).cronActive = false) := by
  refine ⟨?_, ?_, ?_⟩
  · unfold schedRun
    apply schedFold_inv
    unfold schedStart initialSched
    cases en <;> cases firstOk <;> simp [schedTick]
  · intro s hrun hlead hcron ok
    obtain ⟨e, r, l, c⟩ := s
    cases hrun; cases hlead; cases hcron
    cases ok <;> simp [schedTick]
  · intro s hrun hlead
    obtain ⟨e, r, l, c⟩ := s
    cases hrun; cases hlead
    simp [schedTick]

/-- Witness for C8: after a successful first acquisition the invariant
instance yields leadership from active cron jobs. -/
theorem claim8_witness :
    (schedRun true true []).isLeader = true :=
  (claim8_leader_cron_invariant true true []).1 (by decide)

theorem insertByKey_perm {α : Type} (key : α → Int) (x : α) (xs : List α) :
    List.Perm (insertByKey key x xs) (x :: xs) := by
  induction xs with
  | nil => exact List.Perm.refl _
  | cons y ys ih =>
      unfold insertByKey
      by_cases h : key x ≤ key y
      · rw [if_pos h]
      · rw [if_neg h]
        exact (ih.cons y).trans (List.Perm.swap x y ys)

theorem sortByKey_perm {α : Type} (key : α → Int) (xs : List α) :
    List.Perm (sortByKey key xs) xs := by
  induction xs with
  | nil => exact List.Perm.refl _
  | cons x xs ih => exact (insertByKey_perm key x (sortByKey key xs)).trans (ih.cons x)

/-- With distinct ids, `updateOne` on the first match is a pointwise
update of the matching document. -/
theorem mongoUpdateFirst_eq_map (docs : List MongoExec) (i : String) (f : MongoExec → MongoExec)
    (hnodup : (docs.map (fun d => d.id)).Nodup) :
    mongoUpdateFirst docs i f = docs.map (fun d => if d.id = i then f d else d) := by
  induction docs with
  | nil => rfl
  | cons d rest ih =>
      simp only [List.map_cons, List.nodup_cons] at hnodup
      by_cases h : d.id = i
      · have hrest : ∀ d' ∈ rest, (if d'.id = i then f d' else d') = d' := by
          intro d' hd'
          refine if_neg (fun he => hnodup.1 ?_)
          rw [h, ← he]
          exact List.mem_map_of_mem _ hd'
        simp only [mongoUpdateFirst, if_pos h, List.map_cons, if_pos h]
        rw [List.map_congr_left hrest]
        simp
      · simp only [mongoUpdateFirst, if_neg h, List.map_cons, if_neg h]
        rw [ih hnodup.2]

theorem applyMongoUpdate_id (d : MongoExec) (u : MongoUpdates) (b : Bool) :
    (applyMongoUpdate d u b).id = d.id := by
  unfold applyMongoUpdate
  cases b <;> simp

/-- The recovery fold acts componentwise on the two stores, appends the
orphan ids to the queue, and reports them as re-enqueued. -/
theorem recover_foldl (now : Int) (os : List MongoExec) (s : SysState) (acc : List String) :
    os.foldl (recoverOne now) (s, acc) =
      (⟨os.foldl (recoverKvStep now) s.kv, os.foldl (recoverMongoStep now) s.mongo,
        s.queue ++ os.map (fun d => d.id)⟩, acc ++ os.map (fun d => d.id)) := by
  induction os generalizing s acc with
  | nil => simp
  | cons o os ih =>
      simp only [List.foldl_cons, List.map_cons]
      rw [ih]
      simp [recoverOne]

theorem foldl_recoverMongoStep_eq_map (now : Int) (os : List MongoExec) (m : List MongoExec)
    (hm : (m.map (fun d => d.id)).Nodup) (hos : (os.map (fun d => d.id)).Nodup) :
    os.foldl (recoverMongoStep now) m =
      m.map (fun d => if d.id ∈ os.map (fun d => d.id) then
        applyMongoUpdate d ⟨some .queued, none, none, none, none, some now⟩ false else d) := by
  induction os generalizing m with
  | nil => simp
  | cons o os ih =>
      simp only [List.map_cons, List.nodup_cons] at hos
      simp only [List.foldl_cons, List.map_cons]
      have hstep : recoverMongoStep now m o = m.map (fun d =>
          if d.id = o.id then
            applyMongoUpdate d ⟨some .queued, none, none, none, none, some now⟩ false
          else d) :=
        mongoUpdateFirst_eq_map m o.id _ hm
      have hids : ((m.map (fun d =>
          if d.id = o.id then
            applyMongoUpdate d ⟨some .queued, none, none, none, none, some now⟩ false
          else d)).map (fun d => d.id)).Nodup := by
        rw [List.map_map]
        have heq : m.map ((fun d => d.id) ∘ (fun d =>
            if d.id = o.id then
              applyMongoUpdate d ⟨some .queued, none, none, none, none, some now⟩ false
            else d)) = m.map (fun d => d.id) := by
          refine List.map_congr_left (fun d _ => ?_)
          by_cases h : d.id = o.id <;> simp [Function.comp, h, applyMongoUpdate_id]
        rw [heq]
        exact hm
      rw [hstep, ih _ hids hos.2, List.map_map]
      refine List.map_congr_left (fun d _ => ?_)
      simp only [Function.comp_apply]
      by_cases h : d.id = o.id
      · rw [if_pos h]
        rw [if_neg (by rw [applyMongoUpdate_id, h]; exact hos.1),
          if_pos (List.mem_cons.mpr (Or.inl h))]
      · rw [if_neg h]
        by_cases h2 : d.id ∈ os.map (fun d => d.id)
        · rw [if_pos h2, if_pos (List.mem_cons.mpr (Or.inr h2))]
        · rw [if_neg h2, if_neg (by simp [List.mem_cons, h, h2])]

theorem foldl_recoverKvStep_notmem (now : Int) (os : List MongoExec)
    (kv : List (String × RedisExec)) (i : String) (hi : i ∉ os.map (fun d => d.id)) :
    alookup (os.foldl (recoverKvStep now) kv) i = alookup kv i := by
  induction os generalizing kv with
  | nil => rfl
  | cons o os ih =>
      simp only [List.map_cons, List.mem_cons, not_or] at hi
      simp only [List.foldl_cons]
      rw [ih _ hi.2, recoverKvStep, kvApply, alookup_aset_ne _ _ _ _ (fun he => hi.1 he.symm)]

theorem foldl_recoverKvStep_mem (now : Int) (os : List MongoExec)
    (kv : List (String × RedisExec)) (hos : (os.map (fun d => d.id)).Nodup)
    (o : MongoExec) (ho : o ∈ os) :
    alookup (os.foldl (recoverKvStep now) kv) o.id =
      some (saveExecutionToRedisHash ((alookup kv o.id).getD emptyRedisExec)
        (restoredRecord o now)) := by
  induction os generalizing kv with
  | nil => cases ho
  | cons o₀ os ih =>
      simp only [List.map_cons, List.nodup_cons] at hos
      simp only [List.foldl_cons]
      rcases List.mem_cons.mp ho with he | hm
      · subst he
        rw [foldl_recoverKvStep_notmem now os _ o.id hos.1]
        rw [recoverKvStep, kvApply, alookup_aset_self]
      · have hne : o.id ≠ o₀.id := by
          intro he
          exact hos.1 (he ▸ List.mem_map_of_mem _ hm)
        rw [ih _ hos.2 hm, recoverKvStep, kvApply, alookup_aset_ne _ _ _ _ (Ne.symm hne)]

theorem orphan_ids_nodup (m : List MongoExec) (hm : (m.map (fun d => d.id)).Nodup) :
    ((getOrphanedExecutions m).map (fun d => d.id)).Nodup := by
  have hperm : List.Perm ((getOrphanedExecutions m).map (fun d => d.id))
      ((m.filter (fun d => isOrphanStatus d.status)).map (fun d => d.id)) :=
    (sortByKey_perm _ _).map _
  rw [hperm.nodup_iff]
  exact hm.sublist ((List.filter_sublist m).map _)

theorem orphan_ids_iff (m : List MongoExec) (hm : (m.map (fun d => d.id)).Nodup)
    (d : MongoExec) (hd : d ∈ m) :
    d.id ∈ (getOrphanedExecutions m).map (fun d => d.id) ↔ isOrphanStatus d.status = true := by
  have hperm : List.Perm (getOrphanedExecutions m) (m.filter (fun d => isOrphanStatus d.status)) :=
    sortByKey_perm _ _
  constructor
  · intro h
    obtain ⟨o, ho, hoid⟩ := List.mem_map.mp h
    have ho' : o ∈ m.filter (fun d => isOrphanStatus d.status) := hperm.mem_iff.mp ho
    obtain ⟨hom, host⟩ := List.mem_filter.mp ho'
    have : o = d := List.inj_on_of_nodup_map hm hom hd hoid
    exact this ▸ host
  · intro h
    have : d ∈ m.filter (fun d => isOrphanStatus d.status) := List.mem_filter.mpr ⟨hd, h⟩
    exact List.mem_map_of_mem _ (hperm.mem_iff.mpr this)

/-- C5: orphan recovery rewrites exactly the documents whose status is
`processing` or `retrying` to `status := queued`, `updatedAt := now`
with every other field preserved, rewrites their Redis hashes from the
restored records (preserving unrelated hash fields), and appends
exactly the orphan ids to the queue; running it again with no workers
in between re-enqueues nothing and leaves both stores and the queue
unchanged, so the ids ever re-enqueued after two runs equal those after
one (set equality). -/
theorem claim5_orphan_recovery (s : SysState) (now now₂ : Int)
    (hnodup : (s.mongo.map (fun d => d.id)).Nodup) :
    ((recoverOrphans s now).1.mongo =
      s.mongo.map (fun d => if isOrphanStatus d.status = true then
        { d with status := ExecStatus.queued, updatedAt := now } else d)) ∧
    (∀ d ∈ s.mongo, isOrphanStatus d.status = true →
      alookup (recoverOrphans s now).1.kv d.id =
        some (saveExecutionToRedisHash ((alookup s.kv d.id).getD emptyRedisExec)
          (restoredRecord d now))) ∧
    ((recoverOrphans s now).2 = (getOrphanedExecutions s.mongo).map (fun d => d.id)) ∧
    (∀ d ∈ s.mongo, (d.id ∈ (recoverOrphans s now).2 ↔ isOrphanStatus d.status = true)) ∧
    ((recoverOrphans s now).1.queue = s.queue ++ (recoverOrphans s now).2) ∧
    (recoverOrphans (recoverOrphans s now).1 now₂).2 = [] ∧
    (recoverOrphans (recoverOrphans s now).1 now₂).1 = (recoverOrphans s now).1 := by
  have hosn : ((getOrphanedExecutions s.mongo).map (fun d => d.id)).Nodup :=
    orphan_ids_nodup s.mongo hnodup
  have hfold := recover_foldl now (getOrphanedExecutions s.mongo) s []
  have hmongo : (recoverOrphans s now).1.mongo =
      s.mongo.map (fun d => if isOrphanStatus d.status = true then
        { d with status := ExecStatus.queued, updatedAt := now } else d) := by
    rw [recoverOrphans, hfold]
    simp only
    rw [foldl_recoverMongoStep_eq_map now _ s.mongo hnodup hosn]
    refine List.map_congr_left (fun d hd => ?_)
    have hiff := orphan_ids_iff s.mongo hnodup d hd
    by_cases h : isOrphanStatus d.status = true
    · rw [if_pos (hiff.mpr h), if_pos h]
      rfl
    · rw [if_neg (fun hmem => h (hiff.mp hmem)), if_neg h]
  have hempty : getOrphanedExecutions (recoverOrphans s now).1.mongo = [] := by
    rw [hmongo, getOrphanedExecutions]
    rw [List.filter_eq_nil_iff.mpr ?_]
    · rfl
    · intro d' hd'
      obtain ⟨d, _, hdd⟩ := List.mem_map.mp hd'
      by_cases h : isOrphanStatus d.status = true
      · rw [if_pos h] at hdd
        rw [← hdd]
        simp [isOrphanStatus]
      · rw [if_neg h] at hdd
        rw [← hdd]
        simpa using h
  have hsecond : recoverOrphans (recoverOrphans s now).1 now₂ = ((recoverOrphans s now).1, []) := by
    show (getOrphanedExecutions (recoverOrphans s now).1.mongo).foldl (recoverOne now₂)
      ((recoverOrphans s now).1, []) = _
    rw [hempty]
    rfl
  refine ⟨hmongo, ?_, ?_, ?_, ?_, ?_, ?_⟩
  · intro d hd hst
    rw [recoverOrphans, hfold]
    simp only
    have hdo : d ∈ getOrphanedExecutions s.mongo :=
      (sortByKey_perm _ _).mem_iff.mpr (List.mem_filter.mpr ⟨hd, hst⟩)
    exact foldl_recoverKvStep_mem now _ s.kv hosn d hdo
  · rw [recoverOrphans, hfold]
    simp
  · intro d hd
    rw [recoverOrphans, hfold]
    simp only
    rw [List.nil_append]
    exact orphan_ids_iff s.mongo hnodup d hd
  · rw [recoverOrphans, hfold]
    simp
  · rw [hsecond]
  · rw [hsecond]

/-- Witness for C5 on a two-document store with one orphan: the second
recovery run re-enqueues nothing. -/
theorem claim5_witness :
    (recoverOrphans
      (recoverOrphans
        ⟨[], [⟨"a", "f", .goodText .null, .processing, 1, none, none, none, 5, 6⟩,
              ⟨"b", "g", .goodText .null, .completed, 0, none, none, none, 3, 4⟩], []⟩
        100).1 200).2 = [] :=
  (claim5_orphan_recovery
    ⟨[], [⟨"a", "f", .goodText .null, .processing, 1, none, none, none, 5, 6⟩,
          ⟨"b", "g", .goodText .null, .completed, 0, none, none, none, 3, 4⟩], []⟩
    100 200 (by decide)).2.2.2.2.2.1

/-- C6: `ManualRetry` from any current state writes `status := queued`,
`attemptCount := 0`, `updatedAt := now` to the Redis hash (its other
fields untouched) and to the document — the latter with `error` and
`errorStack` removed by `$unset` — and then appends the id to the
queue; nothing of the prior status is consulted. -/
theorem claim6_manual_retry (s : SysState) (i : String) (now : Int) (d : MongoExec)
    (hnodup : (s.mongo.map (fun d => d.id)).Nodup)
    (hd : d ∈ s.mongo) (hid : d.id = i) :
    alookup (clientRetry s i now).kv i =
      some { (alookup s.kv i).getD emptyRedisExec with
        status := some "queued", attemptCount := some "0",
        updatedAt := some (toString now) } ∧
    { d with
      status := ExecStatus.queued, attemptCount := 0, updatedAt := now,
      error := none, errorStack := none } ∈ (clientRetry s i now).mongo ∧
    (clientRetry s i now).queue = s.queue ++ [i] := by
  refine ⟨?_, ?_, rfl⟩
  · simp only [clientRetry, kvApply]
    rw [alookup_aset_self]
    rfl
  · simp only [clientRetry]
    rw [mongoUpdateFirst_eq_map _ _ _ hnodup]
    refine List.mem_map.mpr ⟨d, hd, ?_⟩
    show (if d.id = i then
        applyMongoUpdate d ⟨some .queued, none, none, none, some 0, some now⟩ true
      else d) = _
    rw [if_pos hid]
    rfl

/-- Witness for C6 on a failed execution with error fields set. -/
theorem claim6_witness :
    MongoExec.mk "x" "f" (.goodText .null) .queued 0 none none none 1 50 ∈
      (clientRetry
        ⟨[], [⟨"x", "f", .goodText .null, .failed, 3, none, some "boom", some "stack", 1, 2⟩], []⟩
        "x" 50).mongo ∧
    (clientRetry
      ⟨[], [⟨"x", "f", .goodText .null, .failed, 3, none, some "boom", some "stack", 1, 2⟩], []⟩
      "x" 50).queue = ["x"] := by
  have h := claim6_manual_retry
    ⟨[], [⟨"x", "f", .goodText .null, .failed, 3, none, some "boom", some "stack", 1, 2⟩], []⟩
    "x" 50 ⟨"x", "f", .goodText .null, .failed, 3, none, some "boom", some "stack", 1, 2⟩
    (by decide) (by simp) rfl
  exact ⟨h.2.1, h.2.2⟩

end Worchflow
